import Mathlib

/-!
Verification of the MemoryDB vector memory store (src/index.js).

The development shallowly embeds the memory-fallback (Local) backend and the
Qdrant (Remote) adapter of the MemoryDB class.  JavaScript numbers that the
program stores or compares are modelled exactly: every finite double is a
rational, so stored vectors, importances and timestamps are rationals or
integers, while similarity scores (which involve Math.sqrt) live in the real
numbers, with `Option ℝ` tracking NaN (`none` = NaN).  External effects
(Date.now, randomUUID, the Qdrant client, the filesystem) are passed in as
explicit arguments.
-/

set_option linter.unusedVariables false

/-- A stored memory record (src/index.js, line 141:
`record = (id, ...entry, createdAt: Date.now())`).  `createdAt` is the
Date.now timestamp in milliseconds (an integer). -/
structure Record where
  id : String
  text : String
  category : String
  importance : ℚ
  vector : List ℚ
  createdAt : ℤ
deriving DecidableEq

/-- The caller-supplied entry `(text, vector, category, importance)` passed to
`store` (src/index.js, callers at lines 458, 572, 665). -/
structure EntryInput where
  text : String
  vector : List ℚ
  category : String
  importance : ℚ
deriving DecidableEq

/-- The state of the memory-fallback (Local) backend: the `memoryStore` array,
the collection name and the capacity bound (src/index.js, lines 39-50). -/
structure LocalDB where
  collectionName : String
  memoryStore : List Record
  maxSize : ℕ
deriving DecidableEq

/-- Stable insertion: `x` is placed before the first element `y` that the
comparator does not order strictly before `x`.  `prec a b = true` means the
comparator orders `a` strictly before `b`. -/
def insertBy {α : Type} (prec : α → α → Bool) (x : α) : List α → List α
  | [] => [x]
  | y :: ys => if prec y x then y :: insertBy prec x ys else x :: y :: ys

/-- Stable insertion sort.  `Array.prototype.sort` with a consistent comparator
is a stable sort (ECMA-262), and all stable sorts agree on a consistent
comparator, so this models the two `.sort(...)` calls of src/index.js. -/
def sortBy {α : Type} (prec : α → α → Bool) : List α → List α
  | [] => []
  | x :: xs => insertBy prec x (sortBy prec xs)

/-- The eviction comparator `(a, b) => a.createdAt - b.createdAt`
(src/index.js, line 136): ascending createdAt. -/
def createdPrec (a b : Record) : Bool :=
  decide (a.createdAt < b.createdAt)

/-- `MemoryDB.store`, memory-fallback branch (src/index.js, lines 132-148).
If `maxSize < 999999` and the store is at capacity, the array is sorted by
ascending `createdAt` and its first element is shifted off (`shift()` on an
empty array is a no-op, modelled by `drop 1`).  Then the new record, built
from the entry with the supplied fresh `id` and `Date.now()` value `now`,
is appended.  Returns the new state and the returned record. -/
def MemoryDB.store (db : LocalDB) (entry : EntryInput) (id : String) (now : ℤ) :
    LocalDB × Record :=
  let ms :=
    if db.maxSize < 999999 ∧ db.maxSize ≤ db.memoryStore.length then
      (sortBy createdPrec db.memoryStore).drop 1
    else db.memoryStore
  let record : Record :=
    { id := id, text := entry.text, vector := entry.vector,
      category := entry.category, importance := entry.importance, createdAt := now }
  ({ db with memoryStore := ms ++ [record] }, record)

/-- Removal of the first record whose `id` matches, mirroring
`findIndex` + `splice(index, 1)` (src/index.js, lines 231-233); `none`
corresponds to `findIndex` returning `-1`. -/
def removeFirst (id : String) : List Record → Option (List Record)
  | [] => none
  | r :: rs => if r.id = id then some rs else (removeFirst id rs).map (r :: ·)

/-- `MemoryDB.delete`, memory-fallback branch (src/index.js, lines 229-241):
remove the first record with the given id and return `true`, or return
`false` leaving the store unchanged. -/
def MemoryDB.delete (db : LocalDB) (id : String) : LocalDB × Bool :=
  match removeFirst id db.memoryStore with
  | some l => ({ db with memoryStore := l }, true)
  | none => (db, false)

/-- `MemoryDB.count`, memory-fallback branch (src/index.js, lines 250-252). -/
def MemoryDB.count (db : LocalDB) : ℕ :=
  db.memoryStore.length

/-- States of the Local backend reachable through the public API from the
fresh store the constructor builds when no persisted snapshot is configured
(src/index.js, line 41: `this.memoryStore = []`).  The `store` step may use
any fresh id and any timestamp. -/
inductive Reachable : LocalDB → Prop
  | init (name : String) (maxSize : ℕ) : Reachable ⟨name, [], maxSize⟩
  | store (db : LocalDB) (e : EntryInput) (id : String) (now : ℤ) :
      Reachable db → Reachable (MemoryDB.store db e id now).1
  | del (db : LocalDB) (id : String) :
      Reachable db → Reachable (MemoryDB.delete db id).1

/-- NaN-aware addition of JavaScript numbers, with `none` = NaN (absorbing). -/
def jsAddQ : Option ℚ → Option ℚ → Option ℚ
  | some x, some y => some (x + y)
  | _, _ => none

/-- The accumulation loop of `cosineSimilarity` (src/index.js, lines 173-178):
one pass over `i < a.length` computing `(dot, normA, normB)`.  Reading `b[i]`
past the end of `b` yields `undefined`, and arithmetic on `undefined` yields
NaN (`none`), which then absorbs every later addition. -/
def simLoop : List ℚ → List ℚ → Option ℚ × Option ℚ × Option ℚ
  | [], _ => (some 0, some 0, some 0)
  | x :: xs, [] =>
    let r := simLoop xs []
    (jsAddQ r.1 none, jsAddQ r.2.1 (some (x * x)), jsAddQ r.2.2 none)
  | x :: xs, y :: ys =>
    let r := simLoop xs ys
    (jsAddQ r.1 (some (x * y)), jsAddQ r.2.1 (some (x * x)), jsAddQ r.2.2 (some (y * y)))

/-- `cosineSimilarity` (src/index.js, lines 172-181):
`denom = sqrt(normA) * sqrt(normB)`; `0` when `denom === 0`, otherwise
`dot / denom`.  When `b` is shorter than `a` the accumulators are NaN, the
`denom === 0` test is false, and the division returns NaN (`none`). -/
noncomputable def cosineSimilarity (a b : List ℚ) : Option ℝ :=
  match simLoop a b with
  | (some dot, some na, some nb) =>
    if Real.sqrt (na : ℝ) * Real.sqrt (nb : ℝ) = 0 then some 0
    else some ((dot : ℝ) / (Real.sqrt (na : ℝ) * Real.sqrt (nb : ℝ)))
  | _ => none

/-- The JavaScript test `r.score >= minScore` (src/index.js, line 195):
false when the score is NaN. -/
noncomputable def jsGeB (s : Option ℝ) (m : ℝ) : Bool :=
  match s with
  | some x => decide (m ≤ x)
  | none => false

/-- The JavaScript strict comparison `x < y` on scores: false if either side
is NaN. -/
noncomputable def jsLtB : Option ℝ → Option ℝ → Bool
  | some x, some y => decide (x < y)
  | _, _ => false

/-- One element of the list `search` returns: the vector-stripped entry and
its score (src/index.js, lines 184-193). -/
structure SearchResult where
  entry : Record
  score : Option ℝ

/-- The search comparator `(a, b) => b.score - a.score` (src/index.js,
line 196), sorted ascending: `a` is ordered strictly before `b` exactly when
`b.score - a.score < 0`, i.e. `b.score < a.score` (descending score). -/
noncomputable def searchPrec (a b : SearchResult) : Bool :=
  jsLtB b.score a.score

/-- The `.map(...)` stage of `search` (src/index.js, lines 183-194): each
record becomes its vector-stripped entry paired with its cosine similarity to
the query. -/
noncomputable def searchMapped (db : LocalDB) (vector : List ℚ) : List SearchResult :=
  db.memoryStore.map fun record =>
    { entry := { id := record.id, text := record.text, category := record.category,
                 importance := record.importance, createdAt := record.createdAt,
                 vector := [] },
      score := cosineSimilarity vector record.vector }

/-- `MemoryDB.search`, memory-fallback branch (src/index.js, lines 169-199):
map each record to its vector-stripped entry with its cosine similarity to
the query, keep the scores `>= minScore`, stable-sort by descending score and
take the first `limit`. -/
noncomputable def MemoryDB.search (db : LocalDB) (vector : List ℚ) (limit : ℕ)
    (minScore : ℝ) : List SearchResult :=
  (sortBy searchPrec
    ((searchMapped db vector).filter (fun r => jsGeB r.score minScore))).take limit

/-- Dot product of the zipped common part of two vectors, the mathematical
value computed by the loop of `cosineSimilarity` on equal-length input. -/
def dotProd (a b : List ℚ) : ℚ :=
  (List.zipWith (fun x y => x * y) a b).sum

/-- Sum of squares of a vector, the mathematical value of `normA`/`normB`. -/
def sumSq (a : List ℚ) : ℚ :=
  (a.map (fun x => x * x)).sum

/-- The euclidean norm `sqrt (sum of squares)` of a stored vector. -/
noncomputable def norm2 (a : List ℚ) : ℝ :=
  Real.sqrt ((sumSq a : ℚ) : ℝ)

/-- An error thrown by the Qdrant client: an HTTP-like status and a message
(src/index.js tests `err.status === 404 || err.message.includes('not found')`). -/
structure QdrantError where
  status : ℕ
  message : String
deriving DecidableEq

/-- The payload stored with a Qdrant point (src/index.js, lines 157-162). -/
structure QdrantPayload where
  text : String
  category : String
  importance : ℚ
  createdAt : ℤ
deriving DecidableEq

/-- One hit returned by `client.search` (src/index.js, lines 212-222). -/
structure QdrantHit where
  id : String
  score : ℝ
  payload : QdrantPayload

/-- The projection of a Qdrant hit to the caller-facing result shape
(src/index.js, lines 212-222): payload fields copied, vector emptied. -/
def hitToResult (r : QdrantHit) : SearchResult :=
  { entry := { id := r.id, text := r.payload.text, category := r.payload.category,
               importance := r.payload.importance, createdAt := r.payload.createdAt,
               vector := [] },
    score := some r.score }

/-- Whether the first character list is a leading segment of the second. -/
def startsWithChars : List Char → List Char → Bool
  | [], _ => true
  | _ :: _, [] => false
  | p :: ps, c :: cs => p == c && startsWithChars ps cs

/-- Whether the pattern occurs contiguously inside the character list. -/
def includesChars (pattern : List Char) : List Char → Bool
  | [] => startsWithChars pattern []
  | c :: cs => startsWithChars pattern (c :: cs) || includesChars pattern cs

/-- The JavaScript `s.includes(pattern)` test: `pattern` occurs as a
contiguous substring of `s`. -/
def strIncludes (s pattern : String) : Bool :=
  includesChars pattern.data s.data

/-- `MemoryDB.ensureCollection` (src/index.js, lines 97-117) for the Qdrant
backend.  The results of the two client calls are passed in: on a
`getCollection` error that is a 404 or mentions "not found" the collection is
created (that call's outcome is returned); any other error propagates. -/
def MemoryDB.ensureCollection (useMemoryFallback initialized : Bool)
    (getCollection : Except QdrantError Unit)
    (createCollection : Except QdrantError Unit) : Except QdrantError Unit :=
  if useMemoryFallback || initialized then .ok ()
  else
    match getCollection with
    | .ok _ => .ok ()
    | .error err =>
      if err.status = 404 || strIncludes err.message "not found" then createCollection
      else .error err

/-- An exception escaping the Qdrant search path: a backend error propagated
from `ensureCollection`, or the ReferenceError the catch block itself throws.
The catch at src/index.js line 224 evaluates `api.logger.error(...)`, but
`api` is only the parameter of `register` (line 384) and is not in scope
inside the MemoryDB class (the 1.0.8 change from console.error introduced
the unbound reference), so the handler throws
`ReferenceError: api is not defined` before reaching `return []`. -/
inductive JsError where
  | backend (err : QdrantError)
  | referenceError (name : String)
deriving DecidableEq

/-- `MemoryDB.search`, Qdrant branch (src/index.js, lines 202-227):
`ensureCollection` runs first, OUTSIDE the try block, so its failure
propagates unchanged; a failure of `client.search` itself enters the catch
block, whose first statement `api.logger.error(...)` throws a ReferenceError
(`api` is unbound in this scope), so the `return []` below it is never
reached and that exception propagates instead. -/
def MemoryDB.searchQdrant (initialized : Bool)
    (getCollection createCollection : Except QdrantError Unit)
    (clientSearch : Except QdrantError (List QdrantHit)) :
    Except JsError (List SearchResult) :=
  match MemoryDB.ensureCollection false initialized getCollection createCollection with
  | .error e => .error (.backend e)
  | .ok _ =>
    match clientSearch with
    | .ok results => .ok (results.map hitToResult)
    | .error _ => .error (.referenceError "api")

/-- `MemoryDB.delete`, Qdrant branch (src/index.js, lines 243-247):
`ensureCollection`, then `client.delete`, then `return true` -- the result is
`true` whenever the client calls succeed, whether or not a point with that id
existed. -/
def MemoryDB.deleteQdrant (initialized : Bool)
    (getCollection createCollection : Except QdrantError Unit)
    (clientDelete : Except QdrantError Unit) : Except QdrantError Bool :=
  match MemoryDB.ensureCollection false initialized getCollection createCollection with
  | .error e => .error e
  | .ok _ =>
    match clientDelete with
    | .error e => .error e
    | .ok _ => .ok true

/-- The Qdrant point-deletion endpoint, which the adapter trusts to be
idempotent on missing ids: deleting any id, present or not, succeeds. -/
def qdrantClientDelete (points : List String) (id : String) : Except QdrantError Unit :=
  .ok ()

/-- The object `healthCheck` returns (src/index.js, lines 119-130). -/
structure HealthStatus where
  healthy : Bool
  mode : String
  url : Option String
  error : Option String
deriving DecidableEq

/-- `MemoryDB.healthCheck` (src/index.js, lines 119-130).  The memory backend
answers `(healthy: true, mode: 'memory')` without touching the client; the
Qdrant backend probes `client.getCollections()` inside a try/catch and always
returns a classification, never throwing. -/
def MemoryDB.healthCheck (useMemoryFallback : Bool)
    (getCollections : Except QdrantError Unit) (url : String) : HealthStatus :=
  if useMemoryFallback then ⟨true, "memory", none, none⟩
  else
    match getCollections with
    | .ok _ => ⟨true, "qdrant", some url, none⟩
    | .error err => ⟨false, "qdrant", none, some err.message⟩

/-- JSON value trees.  `JSON.stringify` followed by `JSON.parse` is the
identity on trees of finite numbers, strings, booleans, arrays and plain
objects, so the snapshot codec is modelled at the level of these trees. -/
inductive JValue where
  | null : JValue
  | bool : Bool → JValue
  | num : ℚ → JValue
  | str : String → JValue
  | arr : List JValue → JValue
  | obj : List (String × JValue) → JValue

/-- Property lookup on a parsed JSON object. -/
def jLookup (fields : List (String × JValue)) (key : String) : Option JValue :=
  match fields with
  | [] => none
  | (k, v) :: rest => if k = key then some v else jLookup rest key

/-- Reading a JSON value as a string. -/
def asStr : JValue → Option String
  | .str s => some s
  | _ => none

/-- Reading a JSON value as a number. -/
def asNum : JValue → Option ℚ
  | .num q => some q
  | _ => none

/-- Reading a JSON value as an integer (a rational with denominator 1). -/
def asInt (j : JValue) : Option ℤ :=
  match asNum j with
  | some q => if q.den = 1 then some q.num else none
  | none => none

/-- Reading a JSON array of numbers as a vector. -/
def decodeVector : List JValue → Option (List ℚ)
  | [] => some []
  | j :: js =>
    match asNum j, decodeVector js with
    | some q, some qs => some (q :: qs)
    | _, _ => none

/-- The JSON tree `JSON.stringify` serializes for one record (every field of
the record, vector included, src/index.js lines 88 and 141). -/
def encodeRecord (r : Record) : JValue :=
  .obj [("id", .str r.id), ("text", .str r.text),
        ("vector", .arr (r.vector.map JValue.num)),
        ("category", .str r.category), ("importance", .num r.importance),
        ("createdAt", .num (r.createdAt : ℚ))]

/-- Reading one parsed memory object back as a record. -/
def decodeRecord : JValue → Option Record
  | .obj fields => do
    let i ← (jLookup fields "id").bind asStr
    let t ← (jLookup fields "text").bind asStr
    let v ← (jLookup fields "vector").bind fun j =>
      match j with
      | .arr xs => decodeVector xs
      | _ => none
    let c ← (jLookup fields "category").bind asStr
    let imp ← (jLookup fields "importance").bind asNum
    let ts ← (jLookup fields "createdAt").bind asInt
    some { id := i, text := t, vector := v, category := c, importance := imp,
           createdAt := ts }
  | _ => none

/-- Reading the parsed memories array back as records. -/
def decodeRecords : List JValue → Option (List Record)
  | [] => some []
  | j :: js =>
    match decodeRecord j, decodeRecords js with
    | some r, some rs => some (r :: rs)
    | _, _ => none

/-- `MemoryDB._saveToDisk` (src/index.js, lines 74-95): the snapshot document
`(version, collectionName, savedAt, count, memories)` written to the
configured path, as a JSON tree.  `savedAt` is the ISO timestamp string. -/
def MemoryDB.saveToDisk (db : LocalDB) (savedAt : String) : JValue :=
  .obj [("version", .str "1.0"), ("collectionName", .str db.collectionName),
        ("savedAt", .str savedAt),
        ("count", .num (db.memoryStore.length : ℚ)),
        ("memories", .arr (db.memoryStore.map encodeRecord))]

/-- `MemoryDB._loadFromDisk` (src/index.js, lines 58-72) applied to the parsed
snapshot: `this.memoryStore = parsed.memories || []`.  A missing or null
`memories` property yields the empty store; a well-formed array yields its
records; `none` models a tree whose memories are not record objects (which in
the JavaScript original would silently poison the store). -/
def MemoryDB.loadFromDisk (parsed : JValue) : Option (List Record) :=
  match parsed with
  | .obj fields =>
    match jLookup fields "memories" with
    | some (.arr js) => decodeRecords js
    | some .null => some []
    | some _ => none
    | none => some []
  | _ => none

/-- Test fixture: a concrete entry carrying the one-dimensional vector [1]. -/
def entryOf (t : String) : EntryInput :=
  ⟨t, [1], "other", 1⟩

/-- Test fixture: the record `store` builds from `entryOf t` with the given
id and timestamp. -/
def recOf (id t : String) (ca : ℤ) : Record :=
  ⟨id, t, "other", 1, [1], ca⟩

/-- Test fixture: an empty store with capacity 2. -/
def dbCap2 : LocalDB :=
  ⟨"openclaw_memories", [], 2⟩

/-- Test fixture: an empty store with capacity 0 (the constructor performs no
validation of maxSize, so 0 is accepted). -/
def dbCap0 : LocalDB :=
  ⟨"openclaw_memories", [], 0⟩

/-- Test fixture: a store whose array is NOT in ascending createdAt order (a
legitimate Local store state; such states arise for example when Date.now is
non-monotonic across store calls or after loading a snapshot saved in that
order). -/
def dbTie : LocalDB :=
  ⟨"openclaw_memories", [recOf "A" "a" 2, recOf "B" "b" 1], 1000⟩

/-- Test fixture: a store in ascending createdAt order. -/
def dbSorted : LocalDB :=
  ⟨"openclaw_memories", [recOf "B" "b" 1, recOf "A" "a" 2], 1000⟩

/-- Test fixture: a store at capacity 2 holding two records in descending
createdAt order. -/
def dbFull2 : LocalDB :=
  ⟨"openclaw_memories", [recOf "A" "a" 2, recOf "B" "b" 1], 2⟩

/-! ## Helper lemmas about the stable insertion sort -/

theorem insertBy_perm {α : Type} (prec : α → α → Bool) (x : α) (l : List α) :
    (insertBy prec x l).Perm (x :: l) := by
  induction l with
  | nil => simp [insertBy]
  | cons y ys ih =>
    cases h : prec y x with
    | false => simp [insertBy, h]
    | true =>
      simp only [insertBy, h, if_true]
      exact (ih.cons y).trans (List.Perm.swap x y ys)

theorem sortBy_perm {α : Type} (prec : α → α → Bool) (l : List α) :
    (sortBy prec l).Perm l := by
  induction l with
  | nil => simp [sortBy]
  | cons x xs ih => exact (insertBy_perm prec x (sortBy prec xs)).trans (ih.cons x)

theorem mem_sortBy {α : Type} (prec : α → α → Bool) (l : List α) (a : α) :
    a ∈ sortBy prec l ↔ a ∈ l :=
  (sortBy_perm prec l).mem_iff

theorem insertBy_pairwise_le {α : Type} (prec : α → α → Bool) (S : α → Prop) (x : α)
    (l : List α) (hx : S x) (hl : ∀ a ∈ l, S a)
    (hasym : ∀ a b, S a → S b → prec a b = true → prec b a = false)
    (htrans : ∀ a b c, S a → S b → S c →
      prec b a = false → prec c b = false → prec c a = false)
    (hsorted : l.Pairwise (fun a b => prec b a = false)) :
    (insertBy prec x l).Pairwise (fun a b => prec b a = false) := by
  induction l with
  | nil => simp [insertBy]
  | cons y ys ih =>
    rcases List.pairwise_cons.mp hsorted with ⟨hy, hys⟩
    cases h : prec y x with
    | true =>
      simp only [insertBy, h, if_true]
      refine List.pairwise_cons.mpr ⟨?_, ih (fun a ha => hl a (List.mem_cons_of_mem y ha)) hys⟩
      intro z hz
      rcases List.mem_cons.mp ((insertBy_perm prec x ys).mem_iff.mp hz) with rfl | hzy
      · exact hasym y z (hl y (List.mem_cons_self y ys)) hx h
      · exact hy z hzy
    | false =>
      simp only [insertBy, h, Bool.false_eq_true, if_false]
      refine List.pairwise_cons.mpr ⟨?_, hsorted⟩
      intro z hz
      rcases List.mem_cons.mp hz with rfl | hzys
      · exact h
      · exact htrans x y z hx (hl y (List.mem_cons_self y ys))
          (hl z (List.mem_cons_of_mem y hzys)) h (hy z hzys)

theorem sortBy_pairwise_le {α : Type} (prec : α → α → Bool) (S : α → Prop) (l : List α)
    (hl : ∀ a ∈ l, S a)
    (hasym : ∀ a b, S a → S b → prec a b = true → prec b a = false)
    (htrans : ∀ a b c, S a → S b → S c →
      prec b a = false → prec c b = false → prec c a = false) :
    (sortBy prec l).Pairwise (fun a b => prec b a = false) := by
  induction l with
  | nil => simp [sortBy]
  | cons x xs ih =>
    exact insertBy_pairwise_le prec S x (sortBy prec xs) (hl x (List.mem_cons_self x xs))
      (fun a ha => hl a (List.mem_cons_of_mem x ((sortBy_perm prec xs).mem_iff.mp ha)))
      hasym htrans (ih (fun a ha => hl a (List.mem_cons_of_mem x ha)))

theorem insertBy_pairwise_stable {α : Type} (prec : α → α → Bool) (R : α → α → Prop)
    (x : α) (l : List α)
    (hbefore : ∀ y ∈ l, R x y)
    (hafter : ∀ y ∈ l, prec y x = true → R y x)
    (hl : l.Pairwise R) :
    (insertBy prec x l).Pairwise R := by
  induction l with
  | nil => simp [insertBy]
  | cons y ys ih =>
    rcases List.pairwise_cons.mp hl with ⟨hy, hys⟩
    cases h : prec y x with
    | false =>
      simp only [insertBy, h, Bool.false_eq_true, if_false]
      refine List.pairwise_cons.mpr ⟨?_, hl⟩
      intro z hz
      rcases List.mem_cons.mp hz with rfl | hzys
      · exact hbefore z (List.mem_cons_self z ys)
      · exact hbefore z (List.mem_cons_of_mem y hzys)
    | true =>
      simp only [insertBy, h, if_true]
      refine List.pairwise_cons.mpr
        ⟨?_, ih (fun a ha => hbefore a (List.mem_cons_of_mem y ha))
              (fun a ha hp => hafter a (List.mem_cons_of_mem y ha) hp) hys⟩
      intro z hz
      rcases List.mem_cons.mp ((insertBy_perm prec x ys).mem_iff.mp hz) with rfl | hzy
      · exact hafter y (List.mem_cons_self y ys) h
      · exact hy z hzy

theorem sortBy_pairwise_stable {α : Type} (prec : α → α → Bool) (R : α → α → Prop)
    (l : List α)
    (hswap : ∀ a b, prec b a = true → R b a)
    (hl : l.Pairwise R) : (sortBy prec l).Pairwise R := by
  induction l with
  | nil => simp [sortBy]
  | cons x xs ih =>
    rcases List.pairwise_cons.mp hl with ⟨hx, hxs⟩
    refine insertBy_pairwise_stable prec R x (sortBy prec xs) ?_ ?_ (ih hxs)
    · intro y hy
      exact hx y ((sortBy_perm prec xs).mem_iff.mp hy)
    · intro y hy h
      exact hswap x y h

/-! ## Lemmas about store, delete and the eviction sort -/

theorem store_maxSize (db : LocalDB) (e : EntryInput) (id : String) (now : ℤ) :
    (MemoryDB.store db e id now).1.maxSize = db.maxSize := rfl

theorem store_memoryStore_of_evict (db : LocalDB) (e : EntryInput) (id : String) (now : ℤ)
    (h1 : db.maxSize < 999999) (h2 : db.maxSize ≤ db.memoryStore.length) :
    (MemoryDB.store db e id now).1.memoryStore =
      (sortBy createdPrec db.memoryStore).drop 1 ++ [(MemoryDB.store db e id now).2] := by
  simp [MemoryDB.store, h1, h2]

theorem store_length (db : LocalDB) (e : EntryInput) (id : String) (now : ℤ) :
    (MemoryDB.store db e id now).1.memoryStore.length =
      (if db.maxSize < 999999 ∧ db.maxSize ≤ db.memoryStore.length
        then db.memoryStore.length - 1 else db.memoryStore.length) + 1 := by
  by_cases h : db.maxSize < 999999 ∧ db.maxSize ≤ db.memoryStore.length
  · simp [MemoryDB.store, h, List.length_drop,
      (sortBy_perm createdPrec db.memoryStore).length_eq]
  · simp [MemoryDB.store, h]

theorem removeFirst_none (id : String) (l : List Record) :
    removeFirst id l = none ↔ ∀ r ∈ l, r.id ≠ id := by
  induction l with
  | nil => simp [removeFirst]
  | cons r rs ih =>
    by_cases h : r.id = id
    · simp [removeFirst, h]
    · simp [removeFirst, h, ih]

theorem removeFirst_some (id : String) (l l2 : List Record)
    (h : removeFirst id l = some l2) :
    ∃ pre r post, l = pre ++ r :: post ∧ r.id = id ∧ (∀ q ∈ pre, q.id ≠ id) ∧
      l2 = pre ++ post := by
  induction l generalizing l2 with
  | nil => simp [removeFirst] at h
  | cons r rs ih =>
    by_cases hr : r.id = id
    · simp only [removeFirst, if_pos hr, Option.some.injEq] at h
      exact ⟨[], r, rs, by simp, hr, by simp, h.symm⟩
    · simp only [removeFirst, if_neg hr, Option.map_eq_some'] at h
      obtain ⟨a, ha, hcons⟩ := h
      obtain ⟨pre, q, post, hdec, hq, hpre, rfl⟩ := ih a ha
      refine ⟨r :: pre, q, post, by simp [hdec], hq, ?_, by simp [hcons.symm]⟩
      intro p hp
      rcases List.mem_cons.mp hp with rfl | hpp
      · exact hr
      · exact hpre p hpp

theorem delete_maxSize (db : LocalDB) (id : String) :
    (MemoryDB.delete db id).1.maxSize = db.maxSize := by
  unfold MemoryDB.delete
  cases removeFirst id db.memoryStore <;> rfl

theorem removeFirst_length (id : String) (l l2 : List Record)
    (h : removeFirst id l = some l2) : l2.length + 1 = l.length := by
  obtain ⟨pre, r, post, hdec, _, _, rfl⟩ := removeFirst_some id l l2 h
  simp [hdec, List.length_append]
  omega

theorem delete_length_le (db : LocalDB) (id : String) :
    (MemoryDB.delete db id).1.memoryStore.length ≤ db.memoryStore.length := by
  unfold MemoryDB.delete
  cases h : removeFirst id db.memoryStore with
  | none => simp
  | some l =>
    have := removeFirst_length id db.memoryStore l h
    simp
    omega

theorem sortBy_created_head (l : List Record) (h : l ≠ []) :
    ∃ e t, sortBy createdPrec l = e :: t ∧
      (∃ pre post, l = pre ++ e :: post ∧ ∀ r ∈ pre, e.createdAt < r.createdAt) ∧
      (∀ r ∈ l, e.createdAt ≤ r.createdAt) := by
  induction l with
  | nil => exact absurd rfl h
  | cons x xs ih =>
    cases xs with
    | nil =>
      exact ⟨x, [], by simp [sortBy, insertBy], ⟨[], [], by simp, by simp⟩, by simp⟩
    | cons w ws =>
      obtain ⟨m, t, hsort, ⟨pre, post, hdec, hpre⟩, hmin⟩ := ih (by simp)
      cases hc : createdPrec m x with
      | true =>
        have hmx : m.createdAt < x.createdAt := by
          simpa [createdPrec] using hc
        refine ⟨m, insertBy createdPrec x t, ?_, ⟨x :: pre, post, ?_, ?_⟩, ?_⟩
        · show insertBy createdPrec x (sortBy createdPrec (w :: ws)) = _
          rw [hsort]
          simp [insertBy, hc]
        · simp [hdec]
        · intro r hr
          rcases List.mem_cons.mp hr with rfl | hrp
          · exact hmx
          · exact hpre r hrp
        · intro r hr
          rcases List.mem_cons.mp hr with rfl | hrx
          · exact le_of_lt hmx
          · exact hmin r hrx
      | false =>
        have hxm : x.createdAt ≤ m.createdAt := by
          have := of_decide_eq_false hc
          exact le_of_not_lt this
        refine ⟨x, m :: t, ?_, ⟨[], w :: ws, rfl, by simp⟩, ?_⟩
        · show insertBy createdPrec x (sortBy createdPrec (w :: ws)) = _
          rw [hsort]
          simp [insertBy, hc]
        · intro r hr
          rcases List.mem_cons.mp hr with rfl | hrx
          · exact le_refl _
          · exact le_trans hxm (hmin r hrx)

theorem c1_aux (db : LocalDB) (hr : Reachable db) :
    db.maxSize < 999999 → db.memoryStore.length ≤ max db.maxSize 1 := by
  induction hr with
  | init name m => intro _; simp
  | store db e id now hr ih =>
    intro hfin
    rw [store_maxSize] at hfin ⊢
    rw [store_length]
    by_cases h : db.maxSize < 999999 ∧ db.maxSize ≤ db.memoryStore.length
    · rw [if_pos h]
      rcases Nat.eq_zero_or_pos db.memoryStore.length with h0 | h0
      · rw [h0]
        simp
      · rw [Nat.sub_add_cancel h0]
        exact ih hfin
    · rw [if_neg h]
      have hlt : ¬ db.maxSize ≤ db.memoryStore.length := fun hh => h ⟨hfin, hh⟩
      have := le_max_left db.maxSize 1
      omega
  | del db id hr ih =>
    intro hfin
    rw [delete_maxSize] at hfin ⊢
    exact le_trans (delete_length_le db id) (ih hfin)

theorem sortBy_created_sorted (l : List Record) :
    (sortBy createdPrec l).Pairwise (fun a b => a.createdAt ≤ b.createdAt) := by
  have hs := sortBy_pairwise_le createdPrec (fun _ => True) l (fun a ha => trivial)
    (fun a b _ _ hab => by
      have h := of_decide_eq_true hab
      exact decide_eq_false (lt_asymm h))
    (fun a b c _ _ _ hba hcb => by
      have h1 : a.createdAt ≤ b.createdAt := not_lt.mp (of_decide_eq_false hba)
      have h2 : b.createdAt ≤ c.createdAt := not_lt.mp (of_decide_eq_false hcb)
      exact decide_eq_false (not_lt.mpr (le_trans h1 h2)))
  exact hs.imp (fun hba => not_lt.mp (of_decide_eq_false hba))

/-! ## Claim C1 -/

/-- Claim C1 as stated is false: with `maxSize = 0` (which the constructor
accepts) the very first completed `store()` call leaves 1 > 0 records, because
`shift()` on the empty array removes nothing before the push.  This closed
statement exhibits a reachable state with finite `maxSize = 0` whose count
after a completed store is 1. -/
theorem c1_counterexample :
    Reachable (MemoryDB.store dbCap0 (entryOf "A") "idA" 5).1 ∧
    (MemoryDB.store dbCap0 (entryOf "A") "idA" 5).1.maxSize = 0 ∧
    (MemoryDB.store dbCap0 (entryOf "A") "idA" 5).1.maxSize < 999999 ∧
    MemoryDB.count (MemoryDB.store dbCap0 (entryOf "A") "idA" 5).1 = 1 :=
  ⟨Reachable.store dbCap0 (entryOf "A") "idA" 5
      (Reachable.init "openclaw_memories" 0),
    by decide, by decide, by decide⟩

/-- Claim C1 (amended): for every state of the Local store reachable from the
fresh empty store through store and delete, with `maxSize` below the 999999
sentinel, the record count is at most `max maxSize 1`; in particular for
every `maxSize ≥ 1` the count is at most `maxSize` (after any completed store
call and in every other reachable state).  The original claim additionally
asserted the bound for `maxSize = 0`, which fails (see the counterexample):
the tight bound there is 1. -/
theorem c1_theorem (db : LocalDB) (hr : Reachable db) (hfin : db.maxSize < 999999) :
    MemoryDB.count db ≤ max db.maxSize 1 ∧
    (1 ≤ db.maxSize → MemoryDB.count db ≤ db.maxSize) := by
  refine ⟨c1_aux db hr hfin, fun h1 => ?_⟩
  have := c1_aux db hr hfin
  rwa [Nat.max_eq_left h1] at this

/-- Witness for C1: a concrete reachable state (one store into an empty
capacity-2 store) at which the amended bound evaluates. -/
theorem c1_witness :
    MemoryDB.count (MemoryDB.store dbCap2 (entryOf "A") "idA" 1).1 ≤ 2 :=
  (c1_theorem (MemoryDB.store dbCap2 (entryOf "A") "idA" 1).1
    (Reachable.store dbCap2 (entryOf "A") "idA" 1
      (Reachable.init "openclaw_memories" 2))
    (by decide)).2 (by decide)

/-! ## Claim C2 -/

/-- Claim C2 as stated is false at one corner: a store at finite capacity can
be empty (maxSize = 0), and then `store()` removes no record at all -- there
is no "record with the smallest createdAt among the current records". -/
theorem c2_counterexample :
    dbCap0.maxSize < 999999 ∧ dbCap0.maxSize ≤ dbCap0.memoryStore.length ∧
    dbCap0.memoryStore = [] ∧
    (MemoryDB.store dbCap0 (entryOf "A") "idA" 5).1.memoryStore =
      [recOf "idA" "A" 5] :=
  ⟨by decide, by decide, rfl, by decide⟩

/-- Claim C2 (amended: the store must be nonempty -- which every store at
finite capacity with `maxSize ≥ 1` is): when the Local store is at capacity,
`store()` removes exactly one record, namely the first (earliest-inserted, in
current array order) record attaining the minimal `createdAt`, and appends
the new record; and in the concrete capacity-2 scenario, storing A(t=1),
B(t=2), C(t=3) in order leaves exactly the records B then C. -/
theorem c2_theorem :
    (∀ (db : LocalDB) (e : EntryInput) (id : String) (now : ℤ),
      db.maxSize < 999999 → db.maxSize ≤ db.memoryStore.length →
      db.memoryStore ≠ [] →
      ∃ evicted pre post,
        db.memoryStore = pre ++ evicted :: post ∧
        (∀ r ∈ pre, evicted.createdAt < r.createdAt) ∧
        (∀ r ∈ db.memoryStore, evicted.createdAt ≤ r.createdAt) ∧
        ((MemoryDB.store db e id now).1.memoryStore).Perm
          ((pre ++ post) ++ [(MemoryDB.store db e id now).2])) ∧
    (MemoryDB.store (MemoryDB.store (MemoryDB.store dbCap2 (entryOf "A") "idA" 1).1
        (entryOf "B") "idB" 2).1 (entryOf "C") "idC" 3).1.memoryStore =
      [recOf "idB" "B" 2, recOf "idC" "C" 3] := by
  constructor
  · intro db e id now h1 h2 hne
    obtain ⟨ev, t, hsort, ⟨pre, post, hdec, hpre⟩, hmin⟩ :=
      sortBy_created_head db.memoryStore hne
    refine ⟨ev, pre, post, hdec, hpre, hmin, ?_⟩
    rw [store_memoryStore_of_evict db e id now h1 h2, hsort]
    show (t ++ [(MemoryDB.store db e id now).2]).Perm
      ((pre ++ post) ++ [(MemoryDB.store db e id now).2])
    have ht : t.Perm (pre ++ post) := by
      have hp : (ev :: t).Perm (ev :: (pre ++ post)) := by
        rw [← hsort]
        exact (sortBy_perm createdPrec db.memoryStore).trans
          (by rw [hdec]; exact List.perm_middle)
      exact hp.cons_inv
    exact ht.append_right _
  · decide

/-- Witness for C2: the eviction characterization evaluated at a concrete
capacity-2 store holding records with createdAt 2 and 1. -/
theorem c2_witness :
    ∃ evicted pre post,
      dbFull2.memoryStore = pre ++ evicted :: post ∧
      (∀ r ∈ pre, evicted.createdAt < r.createdAt) ∧
      (∀ r ∈ dbFull2.memoryStore, evicted.createdAt ≤ r.createdAt) ∧
      ((MemoryDB.store dbFull2 (entryOf "C") "idC" 3).1.memoryStore).Perm
        ((pre ++ post) ++ [(MemoryDB.store dbFull2 (entryOf "C") "idC" 3).2]) :=
  c2_theorem.1 dbFull2 (entryOf "C") "idC" 3 (by decide) (by decide) (by decide)

/-! ## Claim C9 -/

/-- Claim C9: whenever a Local store() call triggers eviction, the whole
array is sorted ascending by createdAt as a side effect: the new state is a
createdAt-ascending list of survivors (one fewer than before, all of them old
records) followed by the newly appended record. -/
theorem c9_theorem (db : LocalDB) (e : EntryInput) (id : String) (now : ℤ)
    (h1 : db.maxSize < 999999) (h2 : db.maxSize ≤ db.memoryStore.length) :
    ∃ survivors,
      (MemoryDB.store db e id now).1.memoryStore =
        survivors ++ [(MemoryDB.store db e id now).2] ∧
      survivors.Pairwise (fun a b => a.createdAt ≤ b.createdAt) ∧
      survivors.length = db.memoryStore.length - 1 ∧
      ∀ r ∈ survivors, r ∈ db.memoryStore := by
  refine ⟨(sortBy createdPrec db.memoryStore).drop 1,
    store_memoryStore_of_evict db e id now h1 h2, ?_, ?_, ?_⟩
  · exact (sortBy_created_sorted db.memoryStore).sublist (List.drop_sublist 1 _)
  · rw [List.length_drop, (sortBy_perm createdPrec db.memoryStore).length_eq]
  · intro r hr
    exact (sortBy_perm createdPrec db.memoryStore).mem_iff.mp
      ((List.drop_sublist 1 _).subset hr)

/-- Witness for C9: the reordering side effect evaluated at a concrete
capacity-2 store holding records with createdAt 2 and 1. -/
theorem c9_witness :
    ∃ survivors,
      (MemoryDB.store dbFull2 (entryOf "D") "idD" 3).1.memoryStore =
        survivors ++ [(MemoryDB.store dbFull2 (entryOf "D") "idD" 3).2] ∧
      survivors.Pairwise (fun a b => a.createdAt ≤ b.createdAt) ∧
      survivors.length = dbFull2.memoryStore.length - 1 ∧
      ∀ r ∈ survivors, r ∈ dbFull2.memoryStore :=
  c9_theorem dbFull2 (entryOf "D") "idD" 3 (by decide) (by decide)

/-! ## Claim C5 -/

/-- Claim C5 as stated is false for the Remote backend: `delete` there runs
`client.delete` and returns `true` unconditionally when the calls succeed,
even though no point with that id exists (here: an empty backend). -/
theorem c5_counterexample :
    "x" ∉ ([] : List String) ∧
    MemoryDB.deleteQdrant true (.ok ()) (.ok ()) (qdrantClientDelete [] "x") =
      .ok true :=
  ⟨by simp, rfl⟩

/-- Claim C5 (amended): for the Local backend, `delete(id)` returns true iff
a record with that id exists, removes exactly the first such record when it
does, and leaves the store unchanged returning false otherwise (never
throwing); the Remote backend, however, returns true whenever the backend
calls succeed, regardless of whether the id existed (the backend delete is
trusted to be idempotent). -/
theorem c5_theorem :
    (∀ (db : LocalDB) (id : String),
      ((MemoryDB.delete db id).2 = true ↔ ∃ r ∈ db.memoryStore, r.id = id) ∧
      ((∀ r ∈ db.memoryStore, r.id ≠ id) → MemoryDB.delete db id = (db, false)) ∧
      ((MemoryDB.delete db id).2 = true →
        ∃ pre r post, db.memoryStore = pre ++ r :: post ∧ r.id = id ∧
          (∀ q ∈ pre, q.id ≠ id) ∧
          (MemoryDB.delete db id).1.memoryStore = pre ++ post)) ∧
    (∀ (initialized : Bool) (g c : Except QdrantError Unit),
      MemoryDB.ensureCollection false initialized g c = .ok () →
      ∀ (points : List String) (id : String),
        MemoryDB.deleteQdrant initialized g c (qdrantClientDelete points id) =
          .ok true) := by
  constructor
  · intro db id
    refine ⟨?_, ?_, ?_⟩
    · constructor
      · intro h
        cases hrf : removeFirst id db.memoryStore with
        | none => simp [MemoryDB.delete, hrf] at h
        | some l =>
          obtain ⟨pre, r, post, hdec, hid, hpre, rfl⟩ :=
            removeFirst_some id db.memoryStore l hrf
          exact ⟨r, by simp [hdec], hid⟩
      · intro h
        obtain ⟨r, hmem, hid⟩ := h
        cases hrf : removeFirst id db.memoryStore with
        | none =>
          exact absurd hid ((removeFirst_none id db.memoryStore).mp hrf r hmem)
        | some l => simp [MemoryDB.delete, hrf]
    · intro h
      have hrf : removeFirst id db.memoryStore = none :=
        (removeFirst_none id db.memoryStore).mpr h
      simp [MemoryDB.delete, hrf]
    · intro h
      cases hrf : removeFirst id db.memoryStore with
      | none => simp [MemoryDB.delete, hrf] at h
      | some l =>
        obtain ⟨pre, r, post, hdec, hid, hpre, rfl⟩ :=
          removeFirst_some id db.memoryStore l hrf
        exact ⟨pre, r, post, hdec, hid, hpre, by simp [MemoryDB.delete, hrf]⟩
  · intro initialized g c hens points id
    simp [MemoryDB.deleteQdrant, hens, qdrantClientDelete]

/-- Witness for C5: the Local characterization evaluated at a concrete store
(an absent id leaves the store unchanged and returns false), plus the Remote
branch for a backend holding one point. -/
theorem c5_witness :
    MemoryDB.delete dbTie "nope" = (dbTie, false) ∧
    MemoryDB.deleteQdrant true (.ok ()) (.ok ())
      (qdrantClientDelete ["x"] "x") = .ok true :=
  ⟨(c5_theorem.1 dbTie "nope").2.1 (by decide),
   c5_theorem.2 true (.ok ()) (.ok ()) rfl ["x"] "x"⟩

/-! ## Claim C8 -/

/-- Claim C8 as stated is false in its literal mode strings: the memory
(Local) backend reports mode "memory", not "local" (and the Qdrant backend
reports mode "qdrant", not "remote", with the diagnostic under the key
`error`). -/
theorem c8_counterexample :
    MemoryDB.healthCheck true (.ok ()) "http://localhost:6333" =
      ⟨true, "memory", none, none⟩ ∧
    (MemoryDB.healthCheck true (.ok ()) "http://localhost:6333").mode ≠ "local" :=
  ⟨rfl, by decide⟩

/-- Claim C8 (amended): healthCheck never throws (it is a total function of
the probe outcome) and always returns a classification; the Local (memory)
backend always answers (healthy: true, mode: "memory") without consulting the
probe, and the Qdrant backend answers (healthy: true, mode: "qdrant", url) on
probe success and (healthy: false, mode: "qdrant", error: message) on probe
failure. -/
theorem c8_theorem (probe : Except QdrantError Unit) (url : String)
    (err : QdrantError) :
    MemoryDB.healthCheck true probe url = ⟨true, "memory", none, none⟩ ∧
    MemoryDB.healthCheck false (.ok ()) url = ⟨true, "qdrant", some url, none⟩ ∧
    MemoryDB.healthCheck false (.error err) url =
      ⟨false, "qdrant", none, some err.message⟩ := by
  refine ⟨?_, rfl, rfl⟩
  simp [MemoryDB.healthCheck]

/-! ## Claim C4 -/

/-- Claim C4 as stated is false on both of its failure paths, exhibited at
concrete inputs: an `ensureCollection` failure during the Qdrant search
propagates unchanged (it runs outside the try block), and even a failure of
the `client.search` call does not yield the empty list -- the catch block's
own logging statement references the unbound identifier `api` and throws a
ReferenceError, which propagates. -/
theorem c4_counterexample :
    MemoryDB.searchQdrant false (.error ⟨500, "connection refused"⟩) (.ok ())
        (.ok []) =
      .error (.backend ⟨500, "connection refused"⟩) ∧
    MemoryDB.searchQdrant true (.ok ()) (.ok ())
        (.error ⟨503, "service unavailable"⟩) =
      .error (.referenceError "api") ∧
    (Except.error (.backend ⟨500, "connection refused"⟩) :
        Except JsError (List SearchResult)) ≠ .ok [] ∧
    (Except.error (.referenceError "api") :
        Except JsError (List SearchResult)) ≠ .ok [] :=
  ⟨rfl, rfl, by simp, by simp⟩

/-- Claim C4 (amended): a backend failure during a Qdrant search() never
yields the empty result list -- an exception always propagates out of
search(): when the lazy `ensureCollection` step fails, its backend error
propagates unchanged, and when `ensureCollection` succeeds but the
`client.search` call fails, the catch handler's logging call on the unbound
identifier `api` throws, so a ReferenceError propagates instead of the
intended `return []`. -/
theorem c4_theorem (initialized : Bool) (g c : Except QdrantError Unit)
    (err : QdrantError) :
    (MemoryDB.ensureCollection false initialized g c = .ok () →
      MemoryDB.searchQdrant initialized g c (.error err) =
        .error (.referenceError "api")) ∧
    (∀ e : QdrantError,
      MemoryDB.ensureCollection false initialized g c = .error e →
      MemoryDB.searchQdrant initialized g c (.error err) = .error (.backend e)) := by
  constructor
  · intro hens
    simp [MemoryDB.searchQdrant, hens]
  · intro e hens
    simp [MemoryDB.searchQdrant, hens]

/-- Witness for C4: both propagation paths evaluated at concrete inputs -- an
initialized adapter whose search call fails yields the ReferenceError, and an
uninitialized adapter whose collection probe fails yields that backend
error. -/
theorem c4_witness :
    MemoryDB.searchQdrant true (.ok ()) (.ok ())
        (.error ⟨503, "service unavailable"⟩) =
      .error (.referenceError "api") ∧
    MemoryDB.searchQdrant false (.error ⟨500, "connection refused"⟩) (.ok ())
        (.error ⟨503, "service unavailable"⟩) =
      .error (.backend ⟨500, "connection refused"⟩) :=
  ⟨(c4_theorem true (.ok ()) (.ok ()) ⟨503, "service unavailable"⟩).1 rfl,
   (c4_theorem false (.error ⟨500, "connection refused"⟩) (.ok ())
     ⟨503, "service unavailable"⟩).2 ⟨500, "connection refused"⟩ rfl⟩

/-! ## Claim C6 -/

theorem decodeVector_map (v : List ℚ) : decodeVector (v.map JValue.num) = some v := by
  induction v with
  | nil => rfl
  | cons q qs ih => simp [decodeVector, asNum, ih]

theorem decodeRecord_encodeRecord (r : Record) :
    decodeRecord (encodeRecord r) = some r := by
  simp [decodeRecord, encodeRecord, jLookup, asStr, asNum, asInt, decodeVector_map]

theorem decodeRecords_map (l : List Record) :
    decodeRecords (l.map encodeRecord) = some l := by
  induction l with
  | nil => rfl
  | cons r rs ih => simp [decodeRecords, decodeRecord_encodeRecord, ih]

/-- Claim C6: saving the Local store snapshot (the versioned document with
its memories array, vectors included) and loading it into a fresh store
reproduces the record list exactly -- every record keeps an identical id,
text, category, importance, vector and createdAt.  The JSON text layer
(JSON.stringify then JSON.parse) is modelled as the identity on the JSON
value tree, which holds for trees of finite numbers, strings, arrays and
plain objects. -/
theorem c6_theorem (db : LocalDB) (savedAt : String) :
    MemoryDB.loadFromDisk (MemoryDB.saveToDisk db savedAt) = some db.memoryStore := by
  simp [MemoryDB.loadFromDisk, MemoryDB.saveToDisk, jLookup, decodeRecords_map]

/-! ## Lemmas about the similarity loop -/

theorem jsAddQ_none_right (o : Option ℚ) : jsAddQ o none = none := by
  cases o <;> rfl

theorem sumSq_nonneg (a : List ℚ) : 0 ≤ sumSq a := by
  induction a with
  | nil => simp [sumSq]
  | cons x xs ih =>
    have hx := mul_self_nonneg x
    simp only [sumSq, List.map_cons, List.sum_cons] at *
    linarith

theorem dotProd_self (a : List ℚ) : dotProd a a = sumSq a := by
  unfold dotProd sumSq
  induction a with
  | nil => rfl
  | cons x xs ih => simp [ih]

theorem dotProd_sq_le (a b : List ℚ) : dotProd a b ^ 2 ≤ sumSq a * sumSq b := by
  induction a generalizing b with
  | nil => simp [dotProd, sumSq]
  | cons x xs ih =>
    cases b with
    | nil => simp [dotProd, sumSq]
    | cons y ys =>
      have h := ih ys
      have hA := sumSq_nonneg xs
      have hB := sumSq_nonneg ys
      simp only [dotProd, sumSq, List.zipWith_cons_cons, List.map_cons,
        List.sum_cons] at h hA hB ⊢
      nlinarith [sq_nonneg (x * y - (List.zipWith (fun x y => x * y) xs ys).sum),
        sq_nonneg (x * y + (List.zipWith (fun x y => x * y) xs ys).sum),
        sq_nonneg (x * x * ((ys.map (fun x => x * x)).sum) -
          y * y * ((xs.map (fun x => x * x)).sum)),
        mul_nonneg hA hB,
        sq_nonneg (x * (ys.map (fun x => x * x)).sum -
          y * (List.zipWith (fun x y => x * y) xs ys).sum),
        sq_nonneg (y * (xs.map (fun x => x * x)).sum -
          x * (List.zipWith (fun x y => x * y) xs ys).sum),
        mul_nonneg (mul_self_nonneg x) hB, mul_nonneg (mul_self_nonneg y) hA]

theorem simLoop_eq (a : List ℚ) : ∀ b : List ℚ, a.length = b.length →
    simLoop a b = (some (dotProd a b), some (sumSq a), some (sumSq b)) := by
  induction a with
  | nil =>
    intro b h
    cases b with
    | nil => simp [simLoop, dotProd, sumSq]
    | cons y ys => simp at h
  | cons x xs ih =>
    intro b h
    cases b with
    | nil => simp at h
    | cons y ys =>
      have h2 : xs.length = ys.length := by simpa using h
      simp [simLoop, ih ys h2, jsAddQ, dotProd, sumSq, add_comm]

theorem simLoop_normA (a : List ℚ) : ∀ b : List ℚ,
    (simLoop a b).2.1 = some (sumSq a) := by
  induction a with
  | nil => intro b; simp [simLoop, sumSq]
  | cons x xs ih =>
    intro b
    cases b with
    | nil => simp [simLoop, ih, jsAddQ, sumSq, add_comm]
    | cons y ys => simp [simLoop, ih ys, jsAddQ, sumSq, add_comm]

theorem simLoop_nan (a : List ℚ) : ∀ b : List ℚ, b.length < a.length →
    (simLoop a b).1 = none ∧ (simLoop a b).2.2 = none := by
  induction a with
  | nil => intro b h; simp at h
  | cons x xs ih =>
    intro b h
    cases b with
    | nil => simp [simLoop, jsAddQ_none_right]
    | cons y ys =>
      have h2 : ys.length < xs.length := by simpa using h
      obtain ⟨h1, h3⟩ := ih ys h2
      simp [simLoop, h1, h3, jsAddQ]

theorem simLoop_take (a : List ℚ) : ∀ b : List ℚ, a.length ≤ b.length →
    simLoop a b = simLoop a (b.take a.length) := by
  induction a with
  | nil => intro b h; simp [simLoop]
  | cons x xs ih =>
    intro b h
    cases b with
    | nil => simp at h
    | cons y ys =>
      have h2 : xs.length ≤ ys.length := by simpa using h
      simp [simLoop, List.take_cons, ih ys h2]

theorem cosineSimilarity_short (a b : List ℚ) (h : b.length < a.length) :
    cosineSimilarity a b = none := by
  have h1 := (simLoop_nan a b h).1
  have h3 := (simLoop_nan a b h).2
  rcases hsl : simLoop a b with ⟨d, na, nb⟩
  rw [hsl] at h1 h3
  simp only at h1 h3
  subst h1
  subst h3
  simp [cosineSimilarity, hsl]

theorem cosineSimilarity_take (a b : List ℚ) (h : a.length ≤ b.length) :
    cosineSimilarity a b = cosineSimilarity a (b.take a.length) := by
  unfold cosineSimilarity
  rw [simLoop_take a b h]

/-! ## Claim C7 -/

theorem cosineSimilarity_eq_formula (a b : List ℚ) (h : a.length = b.length) :
    cosineSimilarity a b =
      if Real.sqrt ((sumSq a : ℚ) : ℝ) * Real.sqrt ((sumSq b : ℚ) : ℝ) = 0 then some 0
      else some (((dotProd a b : ℚ) : ℝ) /
        (Real.sqrt ((sumSq a : ℚ) : ℝ) * Real.sqrt ((sumSq b : ℚ) : ℝ))) := by
  unfold cosineSimilarity
  rw [simLoop_eq a b h]

/-- Claim C7: on equal-length vectors (in the exact-arithmetic model of
JavaScript numbers) the similarity is `dot(a,b) / (‖a‖·‖b‖)` whenever both
norms are nonzero, every produced value lies in [-1, 1], the result is
exactly 0 whenever either vector has norm 0 (in particular on a zero query
vector), and `similarity(a, a) = 1` for every nonzero `a` (the exact value of
the floating-point "≈ 1"). -/
theorem c7_theorem :
    (∀ a b : List ℚ, a.length = b.length →
      (sumSq a ≠ 0 → sumSq b ≠ 0 →
        cosineSimilarity a b =
          some (((dotProd a b : ℚ) : ℝ) / (norm2 a * norm2 b))) ∧
      (∀ x : ℝ, cosineSimilarity a b = some x → -1 ≤ x ∧ x ≤ 1) ∧
      ((sumSq a = 0 ∨ sumSq b = 0) → cosineSimilarity a b = some 0)) ∧
    (∀ a : List ℚ, sumSq a ≠ 0 → cosineSimilarity a a = some 1) := by
  constructor
  · intro a b h
    refine ⟨?_, ?_, ?_⟩
    · intro ha hb
      have hA : (0:ℝ) < ((sumSq a : ℚ) : ℝ) := by
        exact_mod_cast lt_of_le_of_ne (sumSq_nonneg a) (Ne.symm ha)
      have hB : (0:ℝ) < ((sumSq b : ℚ) : ℝ) := by
        exact_mod_cast lt_of_le_of_ne (sumSq_nonneg b) (Ne.symm hb)
      have hne : Real.sqrt ((sumSq a : ℚ) : ℝ) * Real.sqrt ((sumSq b : ℚ) : ℝ) ≠ 0 :=
        ne_of_gt (mul_pos (Real.sqrt_pos.mpr hA) (Real.sqrt_pos.mpr hB))
      rw [cosineSimilarity_eq_formula a b h, if_neg hne]
      rfl
    · intro x hx
      rw [cosineSimilarity_eq_formula a b h] at hx
      by_cases hz : Real.sqrt ((sumSq a : ℚ) : ℝ) * Real.sqrt ((sumSq b : ℚ) : ℝ) = 0
      · rw [if_pos hz] at hx
        have hx0 : x = 0 := by
          have := Option.some.injEq (0:ℝ) x ▸ hx
          simpa using hx.symm
        rw [hx0]
        norm_num
      · rw [if_neg hz] at hx
        have hxval : x = ((dotProd a b : ℚ) : ℝ) /
            (Real.sqrt ((sumSq a : ℚ) : ℝ) * Real.sqrt ((sumSq b : ℚ) : ℝ)) := by
          simpa using hx.symm
        have hA0 : (0:ℝ) ≤ ((sumSq a : ℚ) : ℝ) := by exact_mod_cast sumSq_nonneg a
        have hq : (((dotProd a b : ℚ) : ℝ)) ^ 2 ≤
            ((sumSq a : ℚ) : ℝ) * ((sumSq b : ℚ) : ℝ) := by
          exact_mod_cast dotProd_sq_le a b
        have hd : (0:ℝ) ≤ Real.sqrt ((sumSq a : ℚ) : ℝ) * Real.sqrt ((sumSq b : ℚ) : ℝ) :=
          mul_nonneg (Real.sqrt_nonneg _) (Real.sqrt_nonneg _)
        have hdpos : (0:ℝ) < Real.sqrt ((sumSq a : ℚ) : ℝ) * Real.sqrt ((sumSq b : ℚ) : ℝ) :=
          lt_of_le_of_ne hd (Ne.symm hz)
        have habs : |((dotProd a b : ℚ) : ℝ)| ≤
            Real.sqrt ((sumSq a : ℚ) : ℝ) * Real.sqrt ((sumSq b : ℚ) : ℝ) := by
          rw [← Real.sqrt_sq_eq_abs, ← Real.sqrt_mul hA0]
          exact Real.sqrt_le_sqrt hq
        have habs2 : |x| ≤ 1 := by
          rw [hxval, abs_div, abs_of_pos hdpos]
          exact div_le_one_of_le₀ habs (le_of_lt hdpos)
        exact abs_le.mp habs2
    · intro hz
      rcases hz with hz | hz
      · have h0 : ((sumSq a : ℚ) : ℝ) = 0 := by rw [hz]; simp
        rw [cosineSimilarity_eq_formula a b h, h0, Real.sqrt_zero, zero_mul, if_pos rfl]
      · have h0 : ((sumSq b : ℚ) : ℝ) = 0 := by rw [hz]; simp
        rw [cosineSimilarity_eq_formula a b h, h0, Real.sqrt_zero, mul_zero, if_pos rfl]
  · intro a ha
    have hA0 : (0:ℝ) ≤ ((sumSq a : ℚ) : ℝ) := by exact_mod_cast sumSq_nonneg a
    have hAne : ((sumSq a : ℚ) : ℝ) ≠ 0 := by exact_mod_cast ha
    rw [cosineSimilarity_eq_formula a a rfl, dotProd_self, Real.mul_self_sqrt hA0,
      if_neg hAne, div_self hAne]

/-- Witness for C7: the similarity evaluated at concrete vectors -- 1 on a
nonzero vector with itself, 0 against the zero vector, the value identity and
the bounds at concrete inputs. -/
theorem c7_witness :
    cosineSimilarity [3, 4] [3, 4] = some 1 ∧
    cosineSimilarity [0, 0] [1, 1] = some 0 ∧
    ((-1 : ℝ) ≤ 1 ∧ (1 : ℝ) ≤ 1) ∧
    cosineSimilarity [1, 0] [0, 1] =
      some (((dotProd [1, 0] [0, 1] : ℚ) : ℝ) / (norm2 [1, 0] * norm2 [0, 1])) :=
  ⟨c7_theorem.2 [3, 4] (by norm_num [sumSq]),
   (c7_theorem.1 [0, 0] [1, 1] rfl).2.2 (Or.inl (by norm_num [sumSq])),
   (c7_theorem.1 [3, 4] [3, 4] rfl).2.1 1 (c7_theorem.2 [3, 4] (by norm_num [sumSq])),
   (c7_theorem.1 [1, 0] [0, 1] rfl).1 (by norm_num [sumSq]) (by norm_num [sumSq])⟩

/-! ## Lemmas about the search pipeline -/

theorem mem_search_filter (db : LocalDB) (v : List ℚ) (limit : ℕ) (minScore : ℝ)
    (r : SearchResult) (hr : r ∈ MemoryDB.search db v limit minScore) :
    r ∈ (searchMapped db v).filter (fun r => jsGeB r.score minScore) := by
  have h1 : r ∈ sortBy searchPrec
      ((searchMapped db v).filter (fun r => jsGeB r.score minScore)) :=
    List.mem_of_mem_take hr
  exact (sortBy_perm _ _).mem_iff.mp h1

theorem filter_score_ge (minScore : ℝ) (r : SearchResult) (l : List SearchResult)
    (hr : r ∈ l.filter (fun r => jsGeB r.score minScore)) :
    ∃ s : ℝ, r.score = some s ∧ minScore ≤ s := by
  have hp := List.of_mem_filter hr
  cases hs : r.score with
  | none => rw [hs] at hp; simp [jsGeB] at hp
  | some s =>
    rw [hs] at hp
    simp only [jsGeB] at hp
    exact ⟨s, rfl, of_decide_eq_true hp⟩

/-! ## Claim C10 -/

/-- Claim C10: the Local search path is total (never throws) on mismatched
vector lengths: a stored vector shorter than the query is scored NaN (none)
-- and every record actually returned by search has a non-NaN score, so such
records are silently excluded by the minScore filter -- while a query shorter
than a stored vector is scored over that vector's prefix of the query's
length. -/
theorem c10_theorem :
    (∀ a b : List ℚ, b.length < a.length → cosineSimilarity a b = none) ∧
    (∀ a b : List ℚ, a.length ≤ b.length →
      cosineSimilarity a b = cosineSimilarity a (b.take a.length)) ∧
    (∀ (db : LocalDB) (v : List ℚ) (limit : ℕ) (minScore : ℝ),
      ∀ r ∈ MemoryDB.search db v limit minScore, r.score ≠ none) := by
  refine ⟨cosineSimilarity_short, cosineSimilarity_take, ?_⟩
  intro db v limit minScore r hr hnone
  obtain ⟨s, hs, _⟩ :=
    filter_score_ge minScore r _ (mem_search_filter db v limit minScore r hr)
  rw [hnone] at hs
  exact Option.noConfusion hs

/-! ## Concrete evaluation of the search pipeline -/

theorem cos_one_one : cosineSimilarity [1] [1] = some 1 := by
  have hsl : simLoop [1] [1] = (some 1, some 1, some 1) := by
    simp [simLoop, jsAddQ]
  unfold cosineSimilarity
  rw [hsl]
  norm_num [Real.sqrt_one]

theorem search_dbTie_eval :
    MemoryDB.search dbTie [1] 5 0 =
      [⟨⟨"A", "a", "other", 1, [], 2⟩, some 1⟩,
       ⟨⟨"B", "b", "other", 1, [], 1⟩, some 1⟩] := by
  have hge : jsGeB (some (1 : ℝ)) 0 = true := decide_eq_true zero_le_one
  have hlt : jsLtB (some (1 : ℝ)) (some (1 : ℝ)) = false := decide_eq_false (lt_irrefl 1)
  unfold MemoryDB.search searchMapped dbTie recOf
  simp [cos_one_one, hge, hlt, sortBy, insertBy, searchPrec, List.filter]

/-- Witness for C10: the NaN score on a too-short stored vector, the prefix
scoring on a longer stored vector, and the non-NaN score of a concrete search
result, all at concrete inputs. -/
theorem c10_witness :
    cosineSimilarity [1, 2] [1] = none ∧
    cosineSimilarity [1] [1, 2] = cosineSimilarity [1] ([1, 2].take 1) ∧
    (⟨⟨"A", "a", "other", 1, [], 2⟩, some 1⟩ : SearchResult).score ≠ none :=
  ⟨c10_theorem.1 [1, 2] [1] (by decide),
   c10_theorem.2.1 [1] [1, 2] (by decide),
   c10_theorem.2.2 dbTie [1] 5 0 ⟨⟨"A", "a", "other", 1, [], 2⟩, some 1⟩
     (by rw [search_dbTie_eval]; exact List.mem_cons_self _ _)⟩

/-! ## Claim C3 -/

theorem search_sorted_desc (db : LocalDB) (v : List ℚ) (limit : ℕ) (minScore : ℝ) :
    (MemoryDB.search db v limit minScore).Pairwise
      (fun x y => ∀ sx sy : ℝ, x.score = some sx → y.score = some sy → sy ≤ sx) := by
  have hsome : ∀ r ∈ (searchMapped db v).filter (fun r => jsGeB r.score minScore),
      ∃ s : ℝ, r.score = some s := by
    intro r hr
    obtain ⟨s, hs, _⟩ := filter_score_ge minScore r _ hr
    exact ⟨s, hs⟩
  have hp := sortBy_pairwise_le searchPrec (fun r => ∃ s : ℝ, r.score = some s) _
    hsome
    (by
      rintro a b ⟨sa, hsa⟩ ⟨sb, hsb⟩ hab
      simp only [searchPrec, hsa, hsb] at hab ⊢
      have h1 : sb < sa := of_decide_eq_true hab
      exact decide_eq_false (not_lt.mpr (le_of_lt h1)))
    (by
      rintro a b c ⟨sa, hsa⟩ ⟨sb, hsb⟩ ⟨sc, hsc⟩ hba hcb
      simp only [searchPrec, hsa, hsb, hsc] at hba hcb ⊢
      have h1 : sb ≤ sa := not_lt.mp (of_decide_eq_false hba)
      have h2 : sc ≤ sb := not_lt.mp (of_decide_eq_false hcb)
      exact decide_eq_false (not_lt.mpr (le_trans h2 h1)))
  have hp2 : (sortBy searchPrec
      ((searchMapped db v).filter (fun r => jsGeB r.score minScore))).Pairwise
      (fun x y => ∀ sx sy : ℝ, x.score = some sx → y.score = some sy → sy ≤ sx) := by
    refine hp.imp ?_
    intro x y hba sx sy hsx hsy
    simp only [searchPrec, hsx, hsy] at hba
    exact not_lt.mp (of_decide_eq_false hba)
  unfold MemoryDB.search
  exact hp2.sublist (List.take_sublist _ _)

theorem search_stable_tie (db : LocalDB) (v : List ℚ) (limit : ℕ) (minScore : ℝ)
    (hdb : db.memoryStore.Pairwise (fun a b => a.createdAt ≤ b.createdAt)) :
    (MemoryDB.search db v limit minScore).Pairwise
      (fun x y => x.score = y.score → x.entry.createdAt ≤ y.entry.createdAt) := by
  have hmap : (searchMapped db v).Pairwise
      (fun x y => x.entry.createdAt ≤ y.entry.createdAt) := by
    unfold searchMapped
    exact List.Pairwise.map _ (fun a b h => h) hdb
  have hfil : ((searchMapped db v).filter (fun r => jsGeB r.score minScore)).Pairwise
      (fun x y => x.entry.createdAt ≤ y.entry.createdAt) :=
    hmap.sublist (List.filter_sublist _)
  have htie : ((searchMapped db v).filter (fun r => jsGeB r.score minScore)).Pairwise
      (fun x y => x.score = y.score → x.entry.createdAt ≤ y.entry.createdAt) := by
    refine hfil.imp ?_
    intro x y h _
    exact h
  have hsort := sortBy_pairwise_stable searchPrec _ _
    (by
      intro a b hab heq
      cases ha : a.score with
      | none => simp only [searchPrec, ha] at hab; simp [jsLtB] at hab
      | some sa =>
        cases hb : b.score with
        | none => simp only [searchPrec, ha, hb] at hab; simp [jsLtB] at hab
        | some sb =>
          simp only [searchPrec, ha, hb] at hab
          have h1 : sa < sb := of_decide_eq_true hab
          rw [ha, hb] at heq
          have h2 : sb = sa := Option.some.inj heq
          rw [h2] at h1
          exact absurd h1 (lt_irrefl sa))
    htie
  unfold MemoryDB.search
  exact hsort.sublist (List.take_sublist _ _)

/-- Claim C3 is false as stated in its tie-break clause: in this concrete
Local store state -- whose array is not in ascending createdAt order, which
no invariant of the code prevents -- two records tie at score 1 for the
query, yet search returns the record with createdAt 2 before the one with
createdAt 1 (`limit = 5 ≥ 0` and `minScore = 0 ∈ [-1,1]`); the stable sort
breaks ties by array position, not by earliest createdAt. -/
theorem c3_counterexample :
    MemoryDB.search dbTie [1] 5 0 =
      [⟨⟨"A", "a", "other", 1, [], 2⟩, some 1⟩,
       ⟨⟨"B", "b", "other", 1, [], 1⟩, some 1⟩] ∧
    ¬ ((2 : ℤ) ≤ 1) ∧ ((-1 : ℝ) ≤ 0 ∧ (0 : ℝ) ≤ 1) :=
  ⟨search_dbTie_eval, by decide, by norm_num⟩

/-- Claim C3 (amended: the tie-break by earliest createdAt holds whenever the
store array is in non-decreasing createdAt order -- true of every state built
by monotone-timestamp insertions -- while for arbitrary states ties follow
array position): search returns at most `limit` entries, every returned entry
has a real score at least `minScore`, every returned entry's vector field is
empty, entries are in descending score order, and on a createdAt-sorted store
equal-score entries are in ascending createdAt order. -/
theorem c3_theorem (db : LocalDB) (v : List ℚ) (limit : ℕ) (minScore : ℝ) :
    (MemoryDB.search db v limit minScore).length ≤ limit ∧
    (∀ r ∈ MemoryDB.search db v limit minScore,
      ∃ s : ℝ, r.score = some s ∧ minScore ≤ s) ∧
    (∀ r ∈ MemoryDB.search db v limit minScore, r.entry.vector = []) ∧
    (MemoryDB.search db v limit minScore).Pairwise
      (fun x y => ∀ sx sy : ℝ, x.score = some sx → y.score = some sy → sy ≤ sx) ∧
    (db.memoryStore.Pairwise (fun a b => a.createdAt ≤ b.createdAt) →
      (MemoryDB.search db v limit minScore).Pairwise
        (fun x y => x.score = y.score → x.entry.createdAt ≤ y.entry.createdAt)) := by
  refine ⟨List.length_take_le _ _, ?_, ?_, search_sorted_desc db v limit minScore,
    search_stable_tie db v limit minScore⟩
  · intro r hr
    exact filter_score_ge minScore r _ (mem_search_filter db v limit minScore r hr)
  · intro r hr
    have h2 := List.mem_of_mem_filter (mem_search_filter db v limit minScore r hr)
    unfold searchMapped at h2
    obtain ⟨rec, hrec, rfl⟩ := List.mem_map.mp h2
    rfl

/-- Witness for C3: the amended statement evaluated at a createdAt-sorted
concrete store. -/
theorem c3_witness :
    (MemoryDB.search dbSorted [1] 3 0).length ≤ 3 ∧
    (MemoryDB.search dbSorted [1] 3 0).Pairwise
      (fun x y => x.score = y.score → x.entry.createdAt ≤ y.entry.createdAt) :=
  ⟨(c3_theorem dbSorted [1] 3 0).1,
   (c3_theorem dbSorted [1] 3 0).2.2.2.2 (by decide)⟩
